import Mathlib

/-!
# Verification of the RustDuino pin/port abstraction and entropy generator

Shallow embedding of `src/math/random.rs` and `src/atmega2560p/hal/port.rs`.
8-bit machine integers (`u8`) are modelled as `Nat` with explicit `% 256`
where Rust's `u8` arithmetic truncates; shifts by amounts below 8 keep the
source's form.
-/

namespace RustDuino

/-- Embeds `xor` from `src/math/random.rs`: `(a | b) - (a & b)` on `u8`.
For byte-sized inputs `a ||| b ≥ a &&& b`, so `Nat` subtraction matches. -/
def xor8 (a b : ℕ) : ℕ :=
  (a ||| b) - (a &&& b)

/-- Embeds `rotate` from `src/math/random.rs`: `(b >> n) | (b << (8 - n))`
on `u8`; the left shift truncates to 8 bits. -/
def rotate (b n : ℕ) : ℕ :=
  (b >>> n) ||| ((b <<< (8 - n)) % 256)

/-- Embeds `xor_shift` from `src/math/random.rs`: one XORShift round,
`ans` accumulating `a`, `a >> 3`, `a << 5` (truncated), `a >> 4`. -/
def xor_shift (a : ℕ) : ℕ :=
  let ans : ℕ := 0
  let ans := xor8 ans a
  let ans := xor8 ans (a >>> 3)
  let ans := xor8 ans ((a <<< 5) % 256)
  let ans := xor8 ans (a >>> 4)
  ans

/-- Embeds `push_left` from `src/math/random.rs`:
`xor(val << 1, xor(change, val))` with the shift truncated to 8 bits. -/
def push_left (val change : ℕ) : ℕ :=
  xor8 ((val <<< 1) % 256) (xor8 change val)

/-- Embeds `push_right` from `src/math/random.rs`:
`xor(val >> 1, xor(change << 7, val))` with the shift truncated to 8 bits. -/
def push_right (val change : ℕ) : ℕ :=
  xor8 (val >>> 1) (xor8 ((change <<< 7) % 256) val)

/-- Embeds the `Generator` enum from `src/math/random.rs`. -/
inductive Generator
  | Analog
  | Mpu
deriving DecidableEq

/-- Embeds the pure mixing tail of `RandomNumberGenerator::generate_by_mpu`
(`src/math/random.rs` lines 123–134), as a function of the six sensor
bytes `(a, b, c, d, e, f)` returned by `generate_mpu`. -/
def generate_by_mpu_mix (a b c d e f : ℕ) : ℕ :=
  let a1 := ((a &&& 0x3) <<< 6) % 256
  let a2 := ((d &&& 0x3) <<< 6) % 256
  let bits1 := xor8 a1 (xor8 ((c <<< 4) % 256) (xor8 ((b <<< 2) % 256) (xor8 a (c >>> 2))))
  let bits2 := xor8 a2 (xor8 ((f <<< 4) % 256) (xor8 ((e <<< 2) % 256) (xor8 d (f >>> 2))))
  let bits1 := xor_shift bits1
  let bits1 := xor8 bits1 bits2
  bits1

/-- Embeds `RandomNumberGenerator::generate_by_mpu` including its mode
check: `mode = Analog` hits `unreachable!`, modelled as `none` (an
unrecoverable abort, never a value). -/
def generate_by_mpu (mode : Generator) (a b c d e f : ℕ) : Option ℕ :=
  match mode with
  | Generator.Analog => none
  | Generator.Mpu => some (generate_by_mpu_mix a b c d e f)

/-! ## Analog entropy path (`src/math/random.rs`)

`generate_by_analog` performs physical analog reads and blocking delays.
The embedding threads an `AnalogState`: `pos` counts reads consumed from
an oracle stream `reads : ℕ → ℕ` (each truncated to `u8` by the `as u8`
cast), and `delays` records every `delay_ms` call in program order. -/

/-- Instrumented environment state for the analog path: next oracle
position and the trace of `delay_ms` durations issued so far. -/
structure AnalogState where
  pos : ℕ
  delays : List ℕ
deriving DecidableEq

/-- One `self.pins.analog[0].read() as u8`: consume the next oracle value,
truncated to 8 bits. -/
def readPin (reads : ℕ → ℕ) (st : AnalogState) : ℕ × AnalogState :=
  (reads st.pos % 256, { st with pos := st.pos + 1 })

/-- One `delay_ms(t)` call, recorded on the trace. -/
def delay_ms (t : ℕ) (st : AnalogState) : AnalogState :=
  { st with delays := st.delays ++ [t] }

/-- Embeds `xor_rotate`: seven analog reads, each folded in as
`xor(bits1, rotate(a, i))` for `i = 1..8` and followed by `delay_ms(20)`. -/
def xor_rotate (reads : ℕ → ℕ) (st : AnalogState) : ℕ × AnalogState :=
  (List.range' 1 7).foldl
    (fun acc i =>
      let rd := readPin reads acc.2
      (xor8 acc.1 (rotate rd.1 i), delay_ms 20 rd.2))
    (0, st)

/-- Embeds the inner `for j in 1..8` loop of `generate_by_analog`: for each
bit position where `left` and `right` differ, push the left bit into
`lbuf` (`push_left`) or `rbuf` (`push_right`) according to `buf`'s parity. -/
def bitFold (left right buf : ℕ) (lr : ℕ × ℕ) : ℕ × ℕ :=
  (List.range' 1 7).foldl
    (fun p j =>
      let lb := left.testBit j
      let rb := right.testBit j
      if lb ≠ rb then
        if buf % 2 = 0 then (push_left p.1 lb.toNat, p.2)
        else (p.1, push_right p.2 lb.toNat)
      else p)
    lr

/-- Embeds one iteration of the `for i in 1..4` loop of
`generate_by_analog`: two 100 ms delays around the left/right reads, the
`rotate` folds into `bits3`, then the bit-difference pushes.  The
accumulator is `(bits3, lbuf, rbuf, state)`. -/
def analogRound (reads : ℕ → ℕ) (buf : ℕ) (acc : ℕ × ℕ × ℕ × AnalogState) (i : ℕ) :
    ℕ × ℕ × ℕ × AnalogState :=
  let rd1 := readPin reads (delay_ms 100 acc.2.2.2)
  let rd2 := readPin reads (delay_ms 100 rd1.2)
  let left := rd1.1
  let right := rd2.1
  let bits3 := xor8 (xor8 acc.1 (rotate left i)) (rotate right (7 - i))
  let lr := bitFold left right buf (acc.2.1, acc.2.2.1)
  (bits3, lr.1, lr.2, rd2.2)

/-- Embeds the body of `RandomNumberGenerator::generate_by_analog` after
its mode check, returning the produced byte and the final environment
state (read position and delay trace). -/
def generate_by_analog_core (reads : ℕ → ℕ) : ℕ × AnalogState :=
  let r1 := xor_rotate reads ⟨0, []⟩
  let bits1 := xor_shift r1.1
  let r2 := xor_rotate reads r1.2
  let bits1 := xor8 bits1 r2.1
  let r3 := xor_rotate reads r2.2
  let r4 := xor_rotate reads r3.2
  let buf := xor8 r3.1 r4.1
  let fin := (List.range' 1 3).foldl (analogRound reads buf) (0, r3.1, r4.1, r4.2)
  let bits1 := xor_shift bits1
  let bits1 := xor8 bits1 fin.1
  (xor8 bits1 (xor8 fin.2.1 fin.2.2.1), fin.2.2.2)

/-- Embeds `RandomNumberGenerator::generate_by_analog` including its mode
check: `mode = Mpu` hits `unreachable!`, modelled as `none`.  On success
the returned pair carries the byte and the recorded delay trace. -/
def generate_by_analog (mode : Generator) (reads : ℕ → ℕ) : Option (ℕ × List ℕ) :=
  match mode with
  | Generator.Mpu => none
  | Generator.Analog =>
      let r := generate_by_analog_core reads
      some (r.1, r.2.delays)

/-! ## Port / Pin abstraction (`src/atmega2560p/hal/port.rs`)

A `Port` is the three-register block `(pin, ddr, port)`; register contents
are `u8` values modelled as `ℕ`.  The Rust `Pin` holds a raw pointer to its
`Port` plus the bit index; in the embedding the pointer becomes explicit
state passing, so `Pin` keeps only the index and every register operation
maps a `Port` state to a new `Port` state. -/

/-- Embeds the `PortName` enum (ports A–L, no I). -/
inductive PortName
  | A
  | B
  | C
  | D
  | E
  | F
  | G
  | H
  | J
  | K
  | L
deriving DecidableEq

/-- Embeds the `Port` struct: registers `pin` (PINx, write-to-toggle),
`ddr` (DDRx, direction) and `port` (PORTx, output drive). -/
structure Port where
  pin : ℕ
  ddr : ℕ
  port : ℕ
deriving DecidableEq

/-- Embeds the `Pin` struct's `pin` field (the bit index); the `port`
pointer field is replaced by explicit state passing. -/
structure Pin where
  pin : ℕ
deriving DecidableEq

/-- Embeds the `IOMode` enum. -/
inductive IOMode
  | Input
  | Output
deriving DecidableEq

/-- Embeds `Port::pin`: `Some(Pin { port: self, pin })` iff `pin < 0x8`
(named `getPin` because the register field already takes the name `pin`). -/
def Port.getPin (i : ℕ) : Option Pin :=
  if i < 0x8 then some ⟨i⟩ else none

/-- Embeds `Pin::new`: delegates to `Port::pin` on the port for `name`. -/
def Pin.new (name : PortName) (i : ℕ) : Option Pin :=
  Port.getPin i

/-- Embeds `Pin::set_pin_mode`: clear the pin's `ddr` bit, then or in the
bit for `Output` (Rust `!(0x1 << pin)` on `u8` is complement against 255). -/
def Pin.set_pin_mode (p : Pin) (mode : IOMode) (s : Port) : Port :=
  let ddr_val := s.ddr &&& (255 ^^^ ((1 <<< p.pin) % 256))
  let ddr_val := ddr_val ||| (match mode with
    | IOMode.Input => 0x0
    | IOMode.Output => (1 <<< p.pin) % 256)
  { s with ddr := ddr_val }

/-- Embeds `Pin::toggle`: writing `0x1 << pin` to the PINx register, with
the hardware semantics that each written 1-bit flips the matching PORTx
bit (datasheet §13.2, quoted in the source's module comment). -/
def Pin.toggle (p : Pin) (s : Port) : Port :=
  { s with port := s.port ^^^ ((1 <<< p.pin) % 256) }

/-- The body of `Pin::high` after its index guard: toggle iff the whole
PORTx register reads 0 and the whole DDRx register equals `0x1 << pin`. -/
def Pin.highBody (p : Pin) (s : Port) : Port :=
  if s.port = 0 ∧ s.ddr = (1 <<< p.pin) % 256 then p.toggle s else s

/-- Embeds `Pin::high`: early return leaves the state unchanged when
`pin >= 8`, otherwise the guarded toggle. -/
def Pin.high (p : Pin) (s : Port) : Port :=
  if 8 ≤ p.pin then s else p.highBody s

/-- The body of `Pin::low` after its index guard: toggle iff the whole
PORTx register reads nonzero and DDRx equals `0x1 << pin`. -/
def Pin.lowBody (p : Pin) (s : Port) : Port :=
  if s.port ≠ 0 ∧ s.ddr = (1 <<< p.pin) % 256 then p.toggle s else s

/-- Embeds `Pin::low`: early return when `pin >= 8`, else guarded toggle. -/
def Pin.low (p : Pin) (s : Port) : Port :=
  if 8 ≤ p.pin then s else p.lowBody s

/-- Embeds `Pin::output`. -/
def Pin.output (p : Pin) (s : Port) : Port :=
  p.set_pin_mode IOMode.Output s

/-- Embeds `Pin::input`. -/
def Pin.input (p : Pin) (s : Port) : Port :=
  p.set_pin_mode IOMode.Input s

end RustDuino

namespace RustDuino

set_option maxRecDepth 4000

/-- Auxiliary identity: on `ℕ`, bitwise or is bitwise xor plus bitwise and
(the xor collects the non-carrying bits, the and the common ones). -/
theorem lor_eq_xor_add_land (a b : ℕ) : a ||| b = (a ^^^ b) + (a &&& b) := by
  induction a using Nat.binaryRec generalizing b with
  | z => simp
  | f x m ih =>
    rw [← Nat.bit_decomp b, Nat.lor_bit, Nat.xor_bit, Nat.land_bit,
      Nat.bit_val, Nat.bit_val, Nat.bit_val, ih]
    cases x <;> cases Nat.bodd b <;> simp <;> omega

/-- The function `xor8` agrees with bitwise xor on all of `ℕ`. -/
theorem xor8_eq_xor (a b : ℕ) : xor8 a b = a ^^^ b := by
  rw [xor8, lor_eq_xor_add_land, Nat.add_sub_cancel]

/-- Exhaustive byte facts about `rotate`: it keeps bytes in range and for
`1 ≤ n < 8` the rotation by `8 - n` inverts it on both sides. -/
theorem rotate_inv_bytes : ∀ n < 8, 1 ≤ n → ∀ b < 256,
    rotate b n < 256 ∧ rotate (rotate b n) (8 - n) = b ∧
    rotate (rotate b (8 - n)) n = b := by
  decide

/-- The delay trace of `xor_rotate`: exactly seven 20 ms delays appended
to the incoming trace, independent of the analog samples. -/
theorem xor_rotate_delays (reads : ℕ → ℕ) (st : AnalogState) :
    (xor_rotate reads st).2.delays = st.delays ++ List.replicate 7 20 := by
  simp [xor_rotate, readPin, delay_ms, List.range']

/-- The delay trace of one round of the analog loop: two 100 ms delays
appended to the incoming trace, independent of the analog samples. -/
theorem analogRound_delays (reads : ℕ → ℕ) (buf : ℕ) (acc : ℕ × ℕ × ℕ × AnalogState) (i : ℕ) :
    (analogRound reads buf acc i).2.2.2.delays = acc.2.2.2.delays ++ [100, 100] := by
  simp [analogRound, readPin, delay_ms]

/-- The complete delay trace of the analog path: four `xor_rotate` calls
give 28 delays of 20 ms, then the three rounds give 6 delays of 100 ms. -/
theorem generate_by_analog_core_delays (reads : ℕ → ℕ) :
    (generate_by_analog_core reads).2.delays =
      List.replicate 28 20 ++ List.replicate 6 100 := by
  unfold generate_by_analog_core
  simp [analogRound_delays, xor_rotate_delays, List.range', List.replicate]

/-- The single-bit mask `0x1 << i` written to a `u8` register is nonzero
and below 256 whenever the index is below 8. -/
theorem shift_mask_ne_zero (i : ℕ) (hi : i < 8) :
    (1 <<< i) % 256 ≠ 0 ∧ (1 <<< i) < 256 := by
  have hlt : 1 <<< i < 256 := by
    rw [Nat.one_shiftLeft]
    calc 2 ^ i < 2 ^ 8 := Nat.pow_lt_pow_right (by norm_num) hi
      _ = 256 := by norm_num
  refine ⟨?_, hlt⟩
  rw [Nat.mod_eq_of_lt hlt, Nat.one_shiftLeft]
  positivity

/-- A pin produced by `Port::pin` records the requested index, which the
guard has checked to be below 8. -/
theorem getPin_inv (i : ℕ) (p : Pin) (h : Port.getPin i = some p) :
    p.pin = i ∧ p.pin < 8 := by
  unfold Port.getPin at h
  split at h
  · cases h
    exact ⟨rfl, by assumption⟩
  · cases h

-- performance probe: rotate inverse identities
/-! ## Claim theorems -/

/-- C1: for every six sensor bytes `(a,b,c,d,e,f)` (each below 256, being
axis readings truncated to their low 8 bits), `generate_by_mpu` in motion
mode returns exactly `xor(xorShift(bits1), bits2)` with
`bits1 = xor(a1, xor(c<<4, xor(b<<2, xor(a, c>>2))))`,
`bits2 = xor(a2, xor(f<<4, xor(e<<2, xor(d, f>>2))))`,
`a1 = (a & 0x3) << 6`, `a2 = (d & 0x3) << 6`, all shifts truncated to
8 bits; being a pure function of the six inputs it is deterministic. -/
theorem generate_by_mpu_spec (a b c d e f : ℕ)
    (ha : a < 256) (hb : b < 256) (hc : c < 256)
    (hd : d < 256) (he : e < 256) (hf : f < 256) :
    generate_by_mpu Generator.Mpu a b c d e f =
      some (xor8
        (xor_shift (xor8 (((a &&& 0x3) <<< 6) % 256)
          (xor8 ((c <<< 4) % 256) (xor8 ((b <<< 2) % 256) (xor8 a (c >>> 2))))))
        (xor8 (((d &&& 0x3) <<< 6) % 256)
          (xor8 ((f <<< 4) % 256) (xor8 ((e <<< 2) % 256) (xor8 d (f >>> 2)))))) :=
  rfl

/-- Witness for C1 at the concrete input `(1,2,3,4,5,6)`. -/
theorem generate_by_mpu_spec_witness :
    generate_by_mpu Generator.Mpu 1 2 3 4 5 6 =
      some (xor8
        (xor_shift (xor8 (((1 &&& 0x3) <<< 6) % 256)
          (xor8 ((3 <<< 4) % 256) (xor8 ((2 <<< 2) % 256) (xor8 1 (3 >>> 2))))))
        (xor8 (((4 &&& 0x3) <<< 6) % 256)
          (xor8 ((6 <<< 4) % 256) (xor8 ((5 <<< 2) % 256) (xor8 4 (6 >>> 2)))))) :=
  generate_by_mpu_spec 1 2 3 4 5 6 (by decide) (by decide) (by decide)
    (by decide) (by decide) (by decide)

/-- C2 counterexample: on pin 0 with registers `(pin, ddr, port) = (0, 3, 0)`
the pin's direction bit is Output (`ddr` bit 0 set) and the whole `port`
register is zero, yet `high()` leaves the state unchanged — the code
demands the whole `ddr` register to equal the single-bit mask. -/
theorem high_direction_only_counterexample :
    Nat.testBit (3 : ℕ) 0 = true ∧ (Port.mk 0 3 0).port = 0 ∧
      Pin.high ⟨0⟩ (Port.mk 0 3 0) = Port.mk 0 3 0 := by
  decide

/-- C2 (amended): `high()` changes the state iff the index is below 8, the
whole `port` register is zero and the whole `ddr` register equals exactly
`0x1 << pin`; `low()` changes the state iff the index is below 8, `port`
is nonzero and `ddr` equals the mask; when either changes the state it
performs the single-bit toggle, and in every other case (non-matching
`ddr`, wrong `port` value, or index ≥ 8) the call leaves all three
registers unchanged. -/
theorem high_low_toggle_iff (i : ℕ) (s : Port) :
    (Pin.high ⟨i⟩ s ≠ s ↔ i < 8 ∧ s.port = 0 ∧ s.ddr = (1 <<< i) % 256) ∧
    (Pin.high ⟨i⟩ s ≠ s → Pin.high ⟨i⟩ s = Pin.toggle ⟨i⟩ s) ∧
    (Pin.low ⟨i⟩ s ≠ s ↔ i < 8 ∧ s.port ≠ 0 ∧ s.ddr = (1 <<< i) % 256) ∧
    (Pin.low ⟨i⟩ s ≠ s → Pin.low ⟨i⟩ s = Pin.toggle ⟨i⟩ s) := by
  by_cases hi : 8 ≤ i
  · simp [Pin.high, Pin.low, hi, Nat.not_lt.mpr hi]
  · have hi' : i < 8 := Nat.not_le.mp hi
    have hmask : (1 <<< i) % 256 ≠ 0 := (shift_mask_ne_zero i hi').1
    have htog : Pin.toggle ⟨i⟩ s ≠ s := by
      cases s with
      | mk pinr ddrr portr =>
        simp only [Pin.toggle, ne_eq, Port.mk.injEq, true_and]
        intro h
        apply hmask
        have h2 : portr ^^^ (1 <<< i) % 256 = portr ^^^ 0 := by simpa using h
        exact Nat.xor_right_inj.mp h2
    simp only [Pin.high, Pin.highBody, Pin.low, Pin.lowBody, if_neg hi]
    by_cases hp0 : s.port = 0 <;> by_cases hd : s.ddr = (1 <<< i) % 256 <;>
      simp [hp0, hd, hi', htog]

/-- Witness for C2 (amended): on pin 0 with `(0, 1, 0)` the conditions
hold, so `high()` changes the state. -/
theorem high_low_toggle_iff_witness :
    Pin.high ⟨0⟩ (Port.mk 0 1 0) ≠ Port.mk 0 1 0 :=
  (high_low_toggle_iff 0 (Port.mk 0 1 0)).1.mpr ⟨by decide, by decide, by decide⟩

/-- C3 counterexample: pin 0 as a strict output pin (`ddr = 1 = 0x1 << 0`)
with initial `port = 2`: `high()` is a no-op (the whole register is
nonzero), then `low()` toggles bit 0, leaving `port = 3 ≠ 2`. -/
theorem high_low_restore_counterexample :
    (Port.mk 0 1 2).ddr = (1 <<< (0 : ℕ)) % 256 ∧
      (Pin.low ⟨0⟩ (Pin.high ⟨0⟩ (Port.mk 0 1 2))).port = 3 ∧
      (Pin.low ⟨0⟩ (Pin.high ⟨0⟩ (Port.mk 0 1 2))).port ≠ (Port.mk 0 1 2).port := by
  decide

/-- C3 (amended): for every pin index and register state whose `port`
register is initially zero, calling `high()` and then `low()` on that pin
returns the `port` register to its pre-`high` value, with `toggle()`
flipping the matching `port` bit.  For a nonzero initial `port` the
round trip does not restore it (see the counterexample). -/
theorem high_then_low_restores_port (i : ℕ) (s : Port) (h : s.port = 0) :
    (Pin.low ⟨i⟩ (Pin.high ⟨i⟩ s)).port = s.port := by
  by_cases hi : 8 ≤ i
  · simp [Pin.high, Pin.low, hi]
  · have hmask : (1 <<< i) % 256 ≠ 0 := (shift_mask_ne_zero i (Nat.not_le.mp hi)).1
    by_cases hd : s.ddr = (1 <<< i) % 256
    · simp only [Pin.high, Pin.highBody, Pin.low, Pin.lowBody, Pin.toggle, if_neg hi, h, hd]
      simp [Nat.zero_xor, hmask]
    · simp [Pin.high, Pin.highBody, Pin.low, Pin.lowBody, if_neg hi, h, hd]

/-- Witness for C3 (amended) at pin 0, state `(0, 1, 0)`. -/
theorem high_then_low_restores_port_witness :
    (Pin.low ⟨0⟩ (Pin.high ⟨0⟩ (Port.mk 0 1 0))).port = (Port.mk 0 1 0).port :=
  high_then_low_restores_port 0 (Port.mk 0 1 0) (by decide)

/-- C4: `generate_by_mpu` at the sensor bytes `(1,0,0,0,0,0)` returns 109,
with intermediate values `bits1 = 65`, `xorShift(65) = 109`, `bits2 = 0`. -/
theorem generate_by_mpu_at_one :
    generate_by_mpu Generator.Mpu 1 0 0 0 0 0 = some 109 ∧
      (xor8 (((1 &&& 0x3) <<< 6) % 256)
        (xor8 ((0 <<< 4) % 256) (xor8 ((0 <<< 2) % 256) (xor8 1 (0 >>> 2))))) = 65 ∧
      xor_shift 65 = 109 ∧
      (xor8 (((0 &&& 0x3) <<< 6) % 256)
        (xor8 ((0 <<< 4) % 256) (xor8 ((0 <<< 2) % 256) (xor8 0 (0 >>> 2))))) = 0 := by
  decide

/-- C5: each accessor called with the other variant's mode tag aborts (the
`unreachable!` arm, modelled as `none`) and never yields a number, while
with the matching mode the mode check passes and a number is produced. -/
theorem mode_mismatch_fatal (a b c d e f : ℕ) (reads : ℕ → ℕ) :
    generate_by_mpu Generator.Analog a b c d e f = none ∧
      generate_by_analog Generator.Mpu reads = none ∧
      (∃ x, generate_by_mpu Generator.Mpu a b c d e f = some x) ∧
      (∃ y, generate_by_analog Generator.Analog reads = some y) :=
  ⟨rfl, rfl, ⟨_, rfl⟩, ⟨_, rfl⟩⟩

/-- C6: `Port::pin(i)` yields a `Pin` exactly when `i < 8`, and for
`i ≥ 8` it returns `None` (a total function: no fault is possible). -/
theorem port_pin_some_iff (i : ℕ) :
    ((∃ p, Port.getPin i = some p) ↔ i < 8) ∧ (8 ≤ i → Port.getPin i = none) := by
  unfold Port.getPin
  by_cases h : i < 8
  · simp [h]
  · simp [h]

/-- Witness for C6: index 3 is accepted, index 9 yields `None`. -/
theorem port_pin_some_iff_witness :
    (∃ p, Port.getPin 3 = some p) ∧ Port.getPin 9 = none :=
  ⟨(port_pin_some_iff 3).1.mpr (by decide), (port_pin_some_iff 9).2 (by decide)⟩

/-- C7: for each fixed `n` with `1 ≤ n < 8`, `rotate(·, n)` is a bijection
of the 256-element byte space onto itself (256 distinct inputs give 256
distinct outputs), with `rotate(·, 8 − n)` as its two-sided inverse. -/
theorem rotate_bijOn (n : ℕ) (h1 : 1 ≤ n) (h8 : n < 8) :
    Set.BijOn (fun b => rotate b n) (Set.Iio 256) (Set.Iio 256) := by
  have h1' : 1 ≤ 8 - n := by omega
  have h8' : 8 - n < 8 := by omega
  refine ⟨fun b hb => ?_, fun a ha b hb hab => ?_, fun y hy => ?_⟩
  · exact (rotate_inv_bytes n h8 h1 b hb).1
  · have hA := (rotate_inv_bytes n h8 h1 a ha).2.1
    have hB := (rotate_inv_bytes n h8 h1 b hb).2.1
    simp only at hab
    rw [← hA, ← hB, hab]
  · refine ⟨rotate y (8 - n), (rotate_inv_bytes (8 - n) h8' h1' y hy).1, ?_⟩
    simp only
    exact (rotate_inv_bytes n h8 h1 y hy).2.2

/-- Witness for C7 at `n = 3`. -/
theorem rotate_bijOn_witness :
    Set.BijOn (fun b => rotate b 3) (Set.Iio 256) (Set.Iio 256) :=
  rotate_bijOn 3 (by decide) (by decide)

/-- C8: on bytes, `xor` computed as `(a | b) - (a & b)` equals standard
bitwise exclusive-or, is commutative, and is self-inverse. -/
theorem xor8_props (a b : ℕ) (ha : a < 256) (hb : b < 256) :
    xor8 a b = a ^^^ b ∧ xor8 a b = xor8 b a ∧ xor8 a a = 0 := by
  refine ⟨xor8_eq_xor a b, ?_, ?_⟩
  · unfold xor8
    rw [Nat.lor_comm, Nat.land_comm]
  · unfold xor8
    simp

/-- Witness for C8 at `(5, 9)`. -/
theorem xor8_props_witness :
    xor8 5 9 = 5 ^^^ 9 ∧ xor8 5 9 = xor8 9 5 ∧ xor8 5 5 = 0 :=
  xor8_props 5 9 (by decide) (by decide)

/-- C9 counterexample: with the all-zero noise stream, one call of
`generate_by_analog` issues delays totalling 1160 time units — not 740 —
and contains 28 twenty-unit delays — not 7 — because `xor_rotate` (seven
20 ms delays each) is invoked four times, not once. -/
theorem analog_delay_counterexample :
    ((generate_by_analog Generator.Analog (fun _ => 0)).map
        (fun p => p.2.sum)) = some 1160 ∧
      (1160 : ℕ) ≠ 740 ∧
      ((generate_by_analog Generator.Analog (fun _ => 0)).map
        (fun p => p.2.count 20)) = some 28 ∧
      (28 : ℕ) ≠ 7 := by
  constructor
  · rw [show generate_by_analog Generator.Analog (fun _ => 0) =
        some ((generate_by_analog_core (fun _ => 0)).1,
          (generate_by_analog_core (fun _ => 0)).2.delays) from rfl,
      Option.map_some', generate_by_analog_core_delays]
    decide
  refine ⟨by decide, ?_, by decide⟩
  · rw [show generate_by_analog Generator.Analog (fun _ => 0) =
        some ((generate_by_analog_core (fun _ => 0)).1,
          (generate_by_analog_core (fun _ => 0)).2.delays) from rfl,
      Option.map_some', generate_by_analog_core_delays]
    decide

/-- C9 (amended): every call of `generate_by_analog` in analog mode, for
every noise stream, issues exactly six 100-time-unit delays (the
left/right reads of the three rounds) and twenty-eight 20-time-unit
delays (seven per `xor_rotate` call, and `xor_rotate` is called four
times), for a total blocking delay of 1160 time units. -/
theorem analog_delay_trace (reads : ℕ → ℕ) :
    ∃ r ds, generate_by_analog Generator.Analog reads = some (r, ds) ∧
      ds.count 100 = 6 ∧ ds.count 20 = 28 ∧ ds.sum = 1160 := by
  refine ⟨(generate_by_analog_core reads).1,
    (generate_by_analog_core reads).2.delays, rfl, ?_, ?_, ?_⟩ <;>
    rw [generate_by_analog_core_delays] <;> decide

/-- C10: every `Pin` obtained from the public constructors `Port::pin` or
`Pin::new` has index below 8, hence the `0x1 << pin` masks used by
`set_pin_mode`, `toggle`, `high` and `low` stay below 256 (no 8-bit
overflow), and `high`/`low` never take their `pin >= 8` early-return
branch: they always run the guarded body. -/
theorem pin_constructor_inv (name : PortName) (i : ℕ) (p : Pin)
    (h : Port.getPin i = some p ∨ Pin.new name i = some p) :
    p.pin < 8 ∧ (1 <<< p.pin) < 256 ∧
      (∀ s, Pin.high p s = Pin.highBody p s) ∧
      (∀ s, Pin.low p s = Pin.lowBody p s) := by
  have hp : p.pin < 8 := by
    rcases h with h | h
    · exact (getPin_inv i p h).2
    · exact (getPin_inv i p h).2
  refine ⟨hp, (shift_mask_ne_zero p.pin hp).2, fun s => ?_, fun s => ?_⟩
  · unfold Pin.high
    rw [if_neg (Nat.not_le.mpr hp)]
  · unfold Pin.low
    rw [if_neg (Nat.not_le.mpr hp)]

/-- Witness for C10 at `Port::pin(5)` on port A and the state `(1, 2, 3)`. -/
theorem pin_constructor_inv_witness :
    (Pin.mk 5).pin < 8 ∧ (1 <<< (Pin.mk 5).pin) < 256 ∧
      Pin.high (Pin.mk 5) (Port.mk 1 2 3) = Pin.highBody (Pin.mk 5) (Port.mk 1 2 3) ∧
      Pin.low (Pin.mk 5) (Port.mk 1 2 3) = Pin.lowBody (Pin.mk 5) (Port.mk 1 2 3) :=
  ⟨(pin_constructor_inv PortName.A 5 ⟨5⟩ (Or.inl (by decide))).1,
    (pin_constructor_inv PortName.A 5 ⟨5⟩ (Or.inl (by decide))).2.1,
    (pin_constructor_inv PortName.A 5 ⟨5⟩ (Or.inl (by decide))).2.2.1 (Port.mk 1 2 3),
    (pin_constructor_inv PortName.A 5 ⟨5⟩ (Or.inl (by decide))).2.2.2 (Port.mk 1 2 3)⟩

end RustDuino
